import Mathlib

/-!
Verification of the supply-allocation engine of this repository.

The development shallowly embeds the Python sources:
  * `app/utils/supply_optimizer.py` — `optimize_supply_allocation` (index-set
    construction, demand accumulation, composite priorities, the linear
    program's constraint set and objective, result extraction) and
    `get_summary_stats` (grouped summaries);
  * `app/utils/data_loader.py` — `validate_case2_data` and the post-parse
    branch of `load_case2_data` (validation failure falls back to mock data).

Tables become lists of row structures, pandas column sets become lists of
column-name strings, Python floats become `ℚ`, and the external CBC solver
becomes an oracle: theorems quantify over any assignment satisfying the
constraint set the code builds (`Feasible`), or any objective-maximal one
(`OptimalSol`).
-/

/-! ### Generic list helpers (Python `set`/`sorted`/`unique` counterparts) -/

/-- Accumulator version of first-occurrence deduplication: keeps each element's
first occurrence, like `pandas.unique` / insertion order of a Python `dict`. -/
def dedupAux {α : Type} [DecidableEq α] (seen : List α) : List α → List α
  | [] => []
  | a :: as => if a ∈ seen then dedupAux seen as else a :: dedupAux (a :: seen) as

/-- First-occurrence deduplication (`pandas.Series.unique`). -/
def dedupFirst {α : Type} [DecidableEq α] (l : List α) : List α :=
  dedupAux [] l

/-- Insert into a list just before the first element not below `a`. -/
def insertLe {α : Type} (le : α → α → Bool) (a : α) : List α → List α
  | [] => [a]
  | b :: bs => if le a b then a :: b :: bs else b :: insertLe le a bs

/-- Insertion sort with a boolean comparator. -/
def sortLe {α : Type} (le : α → α → Bool) : List α → List α
  | [] => []
  | a :: as => insertLe le a (sortLe le as)

/-- Cartesian product of two lists in nested-loop order, matching a Python
comprehension `[(a, b) for a in l₁ for b in l₂]`. -/
def listProd {α β : Type} (l₁ : List α) (l₂ : List β) : List (α × β) :=
  l₁.flatMap (fun a => l₂.map (fun b => (a, b)))

theorem mem_dedupAux {α : Type} [DecidableEq α] (seen l : List α) (a : α) :
    a ∈ dedupAux seen l ↔ a ∈ l ∧ a ∉ seen := by
  induction l generalizing seen with
  | nil => simp [dedupAux]
  | cons b bs ih =>
    simp only [dedupAux]
    by_cases hb : b ∈ seen
    · rw [if_pos hb, ih]
      constructor
      · rintro ⟨h1, h2⟩; exact ⟨List.mem_cons_of_mem b h1, h2⟩
      · rintro ⟨h1, h2⟩
        rcases List.mem_cons.mp h1 with rfl | h1
        · exact absurd hb h2
        · exact ⟨h1, h2⟩
    · rw [if_neg hb, List.mem_cons, ih]
      constructor
      · rintro (rfl | ⟨h1, h2⟩)
        · exact ⟨List.mem_cons_self a bs, hb⟩
        · exact ⟨List.mem_cons_of_mem b h1, fun hc => h2 (List.mem_cons_of_mem b hc)⟩
      · rintro ⟨h1, h2⟩
        rcases List.mem_cons.mp h1 with rfl | h1
        · exact Or.inl rfl
        · by_cases hab : a = b
          · exact Or.inl hab
          · refine Or.inr ⟨h1, fun hc => ?_⟩
            rcases List.mem_cons.mp hc with rfl | hc
            · exact hab rfl
            · exact h2 hc

theorem mem_dedupFirst {α : Type} [DecidableEq α] (l : List α) (a : α) :
    a ∈ dedupFirst l ↔ a ∈ l := by
  simp [dedupFirst, mem_dedupAux]

theorem nodup_dedupAux {α : Type} [DecidableEq α] (seen l : List α) :
    (dedupAux seen l).Nodup := by
  induction l generalizing seen with
  | nil => simp [dedupAux]
  | cons b bs ih =>
    simp only [dedupAux]
    by_cases hb : b ∈ seen
    · rw [if_pos hb]; exact ih seen
    · rw [if_neg hb]
      refine List.nodup_cons.mpr ⟨?_, ih (b :: seen)⟩
      intro hbmem
      exact ((mem_dedupAux _ _ _).mp hbmem).2 (List.mem_cons_self b seen)

theorem nodup_dedupFirst {α : Type} [DecidableEq α] (l : List α) :
    (dedupFirst l).Nodup :=
  nodup_dedupAux [] l

theorem perm_insertLe {α : Type} (le : α → α → Bool) (a : α) (l : List α) :
    (insertLe le a l).Perm (a :: l) := by
  induction l with
  | nil => simp [insertLe]
  | cons b bs ih =>
    by_cases h : le a b
    · simp [insertLe, h]
    · simp only [insertLe, if_neg h]
      exact (List.Perm.cons b ih).trans (List.Perm.swap a b bs)

theorem perm_sortLe {α : Type} (le : α → α → Bool) (l : List α) :
    (sortLe le l).Perm l := by
  induction l with
  | nil => simp [sortLe]
  | cons a as ih =>
    exact (perm_insertLe le a (sortLe le as)).trans (List.Perm.cons a ih)

theorem mem_sortLe {α : Type} (le : α → α → Bool) (l : List α) (a : α) :
    a ∈ sortLe le l ↔ a ∈ l :=
  (perm_sortLe le l).mem_iff

theorem nodup_sortLe {α : Type} (le : α → α → Bool) (l : List α) (h : l.Nodup) :
    (sortLe le l).Nodup :=
  (perm_sortLe le l).nodup_iff.mpr h

theorem mem_listProd {α β : Type} (l₁ : List α) (l₂ : List β) (a : α) (b : β) :
    (a, b) ∈ listProd l₁ l₂ ↔ a ∈ l₁ ∧ b ∈ l₂ := by
  simp only [listProd, List.mem_flatMap, List.mem_map, Prod.mk.injEq]
  constructor
  · rintro ⟨a', ha', b', hb', rfl, rfl⟩; exact ⟨ha', hb'⟩
  · rintro ⟨ha, hb⟩; exact ⟨a, ha, b, hb, rfl, rfl⟩

theorem nodup_listProd {α β : Type} (l₁ : List α) (l₂ : List β)
    (h₁ : l₁.Nodup) (h₂ : l₂.Nodup) : (listProd l₁ l₂).Nodup := by
  induction l₁ with
  | nil => simp [listProd]
  | cons a as ih =>
    simp only [listProd, List.flatMap_cons]
    refine List.Nodup.append ?_ ?_ ?_
    · exact h₂.map (fun b₁ b₂ h => by simpa using congrArg Prod.snd h)
    · exact ih (List.nodup_cons.mp h₁).2
    · intro p hp hq
      rcases List.mem_map.mp hp with ⟨b, _, rfl⟩
      rcases List.mem_flatMap.mp hq with ⟨a', ha', hmem⟩
      rcases List.mem_map.mp hmem with ⟨b', _, heq⟩
      have : a' = a := congrArg Prod.fst heq
      exact (List.nodup_cons.mp h₁).1 (this ▸ ha')

theorem sum_map_listProd {α β : Type} (l₁ : List α) (l₂ : List β) (f : α × β → ℚ) :
    ((listProd l₁ l₂).map f).sum
      = (l₁.map (fun a => ((l₂.map (fun b => f (a, b))).sum))).sum := by
  induction l₁ with
  | nil => simp [listProd]
  | cons a as ih =>
    simp only [listProd, List.flatMap_cons, List.map_append, List.sum_append,
      List.map_cons, List.sum_cons, List.map_map] at *
    rw [ih]
    rfl

theorem sum_le_sum_of_mem {α : Type} (l : List α) (f g : α → ℚ)
    (h : ∀ a ∈ l, f a ≤ g a) : (l.map f).sum ≤ (l.map g).sum :=
  List.sum_le_sum h

/-- Looking up a key in an association list built by pairing each element with
a function of itself returns that function value. -/
theorem lookup_map_self {α β : Type} [DecidableEq α] [BEq α] [LawfulBEq α]
    (l : List α) (f : α → β) (a : α) (ha : a ∈ l) :
    (l.map (fun x => (x, f x))).lookup a = some (f a) := by
  induction l with
  | nil => cases ha
  | cons b bs ih =>
    rcases List.mem_cons.mp ha with rfl | hmem
    · simp [List.lookup]
    · by_cases hab : a = b
      · subst hab; simp [List.lookup]
      · have hne : (a == b) = false := by simpa using hab
        simp only [List.map_cons, List.lookup, hne]
        exact ih hmem

/-! ### String helpers (structural counterparts of `str.lower` and `in`) -/

/-- Lower-case a string character by character (`str.lower`). -/
def lowerStr (s : String) : String :=
  String.mk (s.data.map Char.toLower)

/-- Boolean test that `pat` is a leading segment of `s`. -/
def charsLead : List Char → List Char → Bool
  | [], _ => true
  | _ :: _, [] => false
  | a :: as, b :: bs => a == b && charsLead as bs

/-- Boolean substring test on character lists. -/
def charsSub (pat : List Char) : List Char → Bool
  | [] => charsLead pat []
  | b :: bs => charsLead pat (b :: bs) || charsSub pat bs

/-- Python's `pat in s` substring containment. -/
def containsSubstr (pat s : String) : Bool :=
  charsSub pat.data s.data

/-- Boolean string comparison used to model Python's `sorted` on strings. -/
def charsLe : List Char → List Char → Bool
  | [], _ => true
  | _ :: _, [] => false
  | a :: as, b :: bs =>
    if a.toNat < b.toNat then true
    else if b.toNat < a.toNat then false
    else charsLe as bs

/-- Lexicographic `≤` on strings via code points. -/
def strLe (s t : String) : Bool :=
  charsLe s.data t.data

/-- Python's `sorted(list(set(l)))` for strings: deduplicate, then sort. -/
def sortedDedup (l : List String) : List String :=
  sortLe strLe (dedupFirst l)

theorem mem_sortedDedup (l : List String) (a : String) :
    a ∈ sortedDedup l ↔ a ∈ l := by
  rw [sortedDedup, mem_sortLe, mem_dedupFirst]

theorem nodup_sortedDedup (l : List String) : (sortedDedup l).Nodup :=
  nodup_sortLe _ _ (nodup_dedupFirst l)

/-! ### Data model of `optimize_supply_allocation` (supply_optimizer.py)

A pandas DataFrame becomes a list of row structures; the set of column names
of the detailed-demand table is carried separately (`customer_demand_cols`)
because the code derives the period axis from it. Week cells hold the numeric
values the code obtains from `float(...)`: cells that are `NaN` or fail the
conversion contribute nothing in the source (they are skipped with a warning),
so they are simply absent from `vals`. -/

/-- One row of the `total_supply` table: columns `week`, `total_supply`. -/
structure SupplyRow where
  week : String
  total_supply : ℚ
deriving DecidableEq

/-- One row of the `actual_build` table: columns `week`, `product`,
`actual_build`. -/
structure BuildRow where
  week : String
  product : String
  actual_build : ℚ
deriving DecidableEq

/-- One row of the `customer_demand` table: identifying columns plus the
numeric week cells, keyed by column name. -/
structure DemandRow where
  product : String
  channel : String
  region : String
  vals : List (String × ℚ)
deriving DecidableEq

/-- The `data` dictionary handed to `optimize_supply_allocation`:
`total_supply`, `actual_build`, `demand_forecast` (only its column names are
ever consulted, for the week-axis fallback) and `customer_demand` (rows plus
its column-name list). -/
structure CaseData where
  total_supply : List SupplyRow
  actual_build : List BuildRow
  demand_forecast_cols : List String
  customer_demand_cols : List String
  customer_demand : List DemandRow

/-- One record of the `special_constraints` argument. Each field comes from
`constraint.get(...)`, hence is optional; `None` models a missing key. -/
structure SpecialConstraint where
  product : Option String
  channel : Option String
  region : Option String
  week : Option String
  satisfaction_rate : Option ℚ
deriving DecidableEq

/-- The full argument tuple of `optimize_supply_allocation`. `None` priority
maps select the built-in defaults, as in the source. `special_constraints`
is a list; the Python `None` default behaves exactly like the empty list
(`if special_constraints:` rejects both). -/
structure OptInput where
  data : CaseData
  product_priorities : Option (List (String × ℚ))
  channel_priorities : Option (List (String × ℚ))
  region_priorities : Option (List (String × ℚ))
  special_constraints : List SpecialConstraint

/-- A (product, channel, region, week) cell, the decision-variable index. -/
abbrev Tup := String × String × String × String

/-- Column filter of line 48: `'wk' in col.lower() or 'week' in col.lower()
and col not in ['product', 'channel', 'region']` (Python precedence: `and`
binds tighter than `or`). -/
def weekColMain (col : String) : Bool :=
  containsSubstr "wk" (lowerStr col)
    || (containsSubstr "week" (lowerStr col)
        && !(["product", "channel", "region"].contains col))

/-- Column filter of line 52 (fallback on the demand-forecast columns), whose
exclusion list is just `col != 'product'`. -/
def weekColFallback (col : String) : Bool :=
  containsSubstr "wk" (lowerStr col)
    || (containsSubstr "week" (lowerStr col) && !(col == "product"))

/-- Products: union of the products appearing in `customer_demand` and in
`actual_build`, deduplicated and sorted (lines 39-41). -/
def productsList (inp : OptInput) : List String :=
  sortedDedup
    ((if inp.data.customer_demand.isEmpty then []
      else dedupFirst (inp.data.customer_demand.map (fun r => r.product)))
     ++ (if inp.data.actual_build.isEmpty then []
         else dedupFirst (inp.data.actual_build.map (fun r => r.product))))

/-- Channels of the detailed demand rows, with `"Default"` appended when
missing, then `sorted(list(set(...)))` (lines 43, 55, 57). -/
def channelsList (inp : OptInput) : List String :=
  sortedDedup
    (let cs := if inp.data.customer_demand.isEmpty then []
               else dedupFirst (inp.data.customer_demand.map (fun r => r.channel));
     if cs.contains "Default" then cs else cs ++ ["Default"])

/-- Regions, treated exactly like channels (lines 44, 56, 58). -/
def regionsList (inp : OptInput) : List String :=
  sortedDedup
    (let rs := if inp.data.customer_demand.isEmpty then []
               else dedupFirst (inp.data.customer_demand.map (fun r => r.region));
     if rs.contains "Default" then rs else rs ++ ["Default"])

/-- The period axis (lines 47-52): week-like columns of `customer_demand`
when it has rows, else the distinct weeks of `total_supply`, else week-like
columns of `demand_forecast`. -/
def weeksList (inp : OptInput) : List String :=
  if !inp.data.customer_demand.isEmpty then
    inp.data.customer_demand_cols.filter weekColMain
  else if !inp.data.total_supply.isEmpty then
    dedupFirst (inp.data.total_supply.map (fun r => r.week))
  else
    inp.data.demand_forecast_cols.filter weekColFallback

/-- The `total_supply` dictionary (lines 86-89). A Python dict comprehension
lets later rows overwrite earlier ones, hence the `reverse` before the
first-match lookup. `none` models a week absent from the table. -/
def supplyLookup (inp : OptInput) (w : String) : Option ℚ :=
  ((inp.data.total_supply.map (fun r => (r.week, r.total_supply))).reverse).lookup w

/-- Demand contributed to cell `(p, c, r, w)` by one pass over the
`customer_demand` rows (lines 111-126): rows matching the three identifiers
each add their numeric cell for column `w` (0 when the cell is absent). -/
def cellSum (rows : List DemandRow) (p c r w : String) : ℚ :=
  ((rows.filter (fun row => row.product == p && row.channel == c && row.region == r)).map
    (fun row => ((row.vals.lookup w).getD 0))).sum

/-- Value of the `demand` dictionary at key `(p, c, r, w)`: the accumulation
loop runs once per occurrence of `w` in the week axis (the dictionary key is
written once per iteration of `for week_col in weeks`), on top of the 0.0
initialisation of lines 103-107. -/
def demandVal (inp : OptInput) (p c r w : String) : ℚ :=
  (((weeksList inp).filter (fun w2 => w2 == w)).map
    (fun w2 => cellSum inp.data.customer_demand p c r w2)).sum

/-- `demandVal` on a packed tuple. -/
def demandT (inp : OptInput) (t : Tup) : ℚ :=
  demandVal inp t.1 t.2.1 t.2.2.1 t.2.2.2

/-- Membership of a tuple in the key set of the `demand` dictionary, which
after initialisation is exactly the cross product of the four index sets;
this is the `(p, c, r, w) in demand` test of lines 156, 178, 190, 204. -/
def inKeysB (inp : OptInput) (t : Tup) : Bool :=
  (productsList inp).contains t.1 && (channelsList inp).contains t.2.1
    && (regionsList inp).contains t.2.2.1 && (weeksList inp).contains t.2.2.2

/-- Default product priority built when `product_priorities is None`
(lines 61-69): 5, raised to 8 for names containing `plus`, lowered to 3 for
names containing `mini`. -/
def defaultProductPriority (p : String) : ℚ :=
  if containsSubstr "plus" (lowerStr p) then 8
  else if containsSubstr "mini" (lowerStr p) then 3
  else 5

/-- Default channel priority table of lines 71-78. -/
def defaultChannelPriorities : List (String × ℚ) :=
  [("Default", 1), ("Online Store", 7), ("Retail Store", 5), ("Reseller Partners", 8)]

/-- The product priority map actually used by the solve. -/
def resolvedProductPriorities (inp : OptInput) : List (String × ℚ) :=
  match inp.product_priorities with
  | some m => m
  | none => (productsList inp).map (fun p => (p, defaultProductPriority p))

/-- The channel priority map actually used by the solve. -/
def resolvedChannelPriorities (inp : OptInput) : List (String × ℚ) :=
  match inp.channel_priorities with
  | some m => m
  | none => defaultChannelPriorities

/-- The region priority map actually used by the solve (lines 80-82: every
region gets weight 1 when no map is supplied). -/
def resolvedRegionPriorities (inp : OptInput) : List (String × ℚ) :=
  match inp.region_priorities with
  | some m => m
  | none => (regionsList inp).map (fun r => (r, (1 : ℚ)))

/-- Composite priority of a triple (lines 145-148):
`product_priorities.get(p, 5) * channel_priorities.get(c, 1) *
region_priorities.get(r, 1)`. -/
def priorityOf (inp : OptInput) (p c r : String) : ℚ :=
  (((resolvedProductPriorities inp).lookup p).getD 5)
    * (((resolvedChannelPriorities inp).lookup c).getD 1)
    * (((resolvedRegionPriorities inp).lookup r).getD 1)

/-- The `(p, c, r)` triples in nested-loop order (`for p for c for r`). -/
def triplesList (inp : OptInput) : List (String × String × String) :=
  listProd (productsList inp) (listProd (channelsList inp) (regionsList inp))

/-- The `priority` dictionary built by lines 140-148, as an association
list over the triples. -/
def priorityDict (inp : OptInput) : List ((String × String × String) × ℚ) :=
  (triplesList inp).map (fun t => (t, priorityOf inp t.1 t.2.1 t.2.2))

/-- The decision-variable index list of lines 132-138: `LpVariable.dicts`
receives the full cross product of the four index sets, one continuous
variable with lower bound 0 per element. -/
def allTuples (inp : OptInput) : List Tup :=
  listProd (productsList inp)
    (listProd (channelsList inp) (listProd (regionsList inp) (weeksList inp)))

/-- Tuples contributing an objective term (lines 151-159): cells of the
demand dictionary with strictly positive demand. -/
def posDemandTuples (inp : OptInput) : List Tup :=
  (allTuples inp).filter (fun t => inKeysB inp t && decide (0 < demandT inp t))

/-- One objective summand: composite priority times fractional satisfaction. -/
def objTerm (inp : OptInput) (x : Tup → ℚ) (t : Tup) : ℚ :=
  priorityOf inp t.1 t.2.1 t.2.2.1 * x t / demandT inp t

/-- The maximised objective of the linear program. -/
def objectiveVal (inp : OptInput) (x : Tup → ℚ) : ℚ :=
  ((posDemandTuples inp).map (objTerm inp x)).sum

/-- Left-hand side of the weekly supply constraint (lines 169-171): total
allocation of week `w` across every `(p, c, r)` triple. -/
def supplyLHS (inp : OptInput) (x : Tup → ℚ) (w : String) : ℚ :=
  ((triplesList inp).map (fun t => x (t.1, t.2.1, t.2.2, w))).sum

/-- The supply constraint for one week (lines 167-171). A week that is a key
of the supply dictionary caps the weekly total; a week absent from it is NOT
constrained (the `getD` fallback makes the inequality trivially true then,
mirroring the skipped `prob +=`). -/
def weekSupplyOK (inp : OptInput) (x : Tup → ℚ) (w : String) : Prop :=
  supplyLHS inp x w ≤ (supplyLookup inp w).getD (supplyLHS inp x w)

/-- Python truthiness of an optional string field: `None` and `""` are
falsy, anything else truthy. -/
def truthyStr : Option String → Bool
  | none => false
  | some s => !(s == "")

/-- The cell named by a special-constraint record (defaults only matter when
a field is missing, in which case the record is skipped anyway). -/
def scFields (sc : SpecialConstraint) : Tup :=
  (sc.product.getD "", sc.channel.getD "", sc.region.getD "", sc.week.getD "")

/-- `constraint.get('satisfaction_rate', 1.0)` (line 188). -/
def scRate (sc : SpecialConstraint) : ℚ :=
  sc.satisfaction_rate.getD 1

/-- Guard of line 190: `all([p, c, r, w]) and (p,c,r,w) in demand and
demand[(p,c,r,w)] > 0`. Only records passing it add a floor constraint. -/
def scActive (inp : OptInput) (sc : SpecialConstraint) : Bool :=
  truthyStr sc.product && truthyStr sc.channel && truthyStr sc.region
    && truthyStr sc.week && inKeysB inp (scFields sc)
    && decide (0 < demandT inp (scFields sc))

/-- The complete constraint set of the linear program built by
`optimize_supply_allocation`: variable lower bounds, the weekly supply caps,
the per-cell demand caps (lines 174-179; the `in demand` guard is the key
test `inKeysB`), and the active special-constraint floors (lines 181-191). -/
def Feasible (inp : OptInput) (x : Tup → ℚ) : Prop :=
  (∀ t ∈ allTuples inp, 0 ≤ x t)
    ∧ (∀ w ∈ weeksList inp, weekSupplyOK inp x w)
    ∧ (∀ t ∈ allTuples inp, inKeysB inp t = true → x t ≤ demandT inp t)
    ∧ (∀ sc ∈ inp.special_constraints, scActive inp sc = true →
        scRate sc * demandT inp (scFields sc) ≤ x (scFields sc))

/-- An optimal solution: feasible and objective-maximal. When CBC reports
status `Optimal`, the valuation it hands back is (up to solver tolerance)
such an assignment. -/
def OptimalSol (inp : OptInput) (x : Tup → ℚ) : Prop :=
  Feasible inp x ∧ ∀ y, Feasible inp y → objectiveVal inp y ≤ objectiveVal inp x

/-- One row of the returned result DataFrame (lines 207-216). -/
structure ResultRow where
  product : String
  channel : String
  region : String
  week : String
  demand : ℚ
  allocation : ℚ
  satisfaction : ℚ
  priority : ℚ
deriving DecidableEq

/-- The row emitted for tuple `t` (lines 207-216), including the
`allocation / demand if demand > 0 else 1` satisfaction guard and the
`priority.get((p,c,r), 1)` lookup. -/
def mkResultRow (inp : OptInput) (x : Tup → ℚ) (t : Tup) : ResultRow :=
  ⟨t.1, t.2.1, t.2.2.1, t.2.2.2, demandT inp t, x t,
   if 0 < demandT inp t then x t / demandT inp t else 1,
   ((priorityDict inp).lookup (t.1, t.2.1, t.2.2.1)).getD 1⟩

/-- Result extraction on an optimal status (lines 199-216): one row per
cross-product tuple whose demand is positive and whose solved allocation is
positive. The solved valuation is total here, so the Python
`allocation is not None` guard is always satisfied. -/
def extractResults (inp : OptInput) (x : Tup → ℚ) : List ResultRow :=
  (allTuples inp).filterMap (fun t =>
    if inKeysB inp t && decide (0 < demandT inp t) then
      (if 0 < x t then some (mkResultRow inp x t) else none)
    else none)

/-- Outcome of `prob.solve(PULP_CBC_CMD(msg=False))`: PuLP's status is one of
`Optimal`, `Infeasible`, `Unbounded`, `Not Solved`, `Undefined`; only the
first carries a usable valuation. -/
inductive SolveStat where
  | optimal (x : Tup → ℚ)
  | infeasible
  | unbounded
  | notSolved
  | undefinedStat

/-- `optimize_supply_allocation` after the solve (lines 196-227): extraction
on an optimal status, the empty result table (it has the standard columns
but no rows) on every other status. The function returns normally in every
case; no exception escapes. -/
def optimize_supply_allocation (inp : OptInput) (outcome : SolveStat) : List ResultRow :=
  match outcome with
  | .optimal x => extractResults inp x
  | .infeasible => []
  | .unbounded => []
  | .notSolved => []
  | .undefinedStat => []

/-! ### `get_summary_stats` (supply_optimizer.py lines 229-274) -/

/-- One row of a grouped summary table: the group key, the summed demand and
allocation, and their quotient. -/
structure GroupRow (κ : Type) where
  key : κ
  demand : ℚ
  allocation : ℚ
  satisfaction : ℚ

/-- A pandas `groupby(key).agg(sum)` followed by the satisfaction-column
division: one row per distinct key value, carrying the group sums and their
ratio. Group keys are listed in first-occurrence order; pandas additionally
sorts them, which no property below depends on. -/
def groupAgg {κ : Type} [DecidableEq κ] (keyf : ResultRow → κ)
    (df : List ResultRow) : List (GroupRow κ) :=
  (dedupFirst (df.map keyf)).map (fun k =>
    let grp := df.filter (fun r => decide (keyf r = k));
    let d := (grp.map (fun r => r.demand)).sum;
    let a := (grp.map (fun r => r.allocation)).sum;
    ⟨k, d, a, a / d⟩)

/-- The summary dictionary returned by `get_summary_stats`. Each field models
one key of the Python dict; `none` means the key is absent. -/
structure SummaryStats where
  product : Option (List (GroupRow String))
  product_week : Option (List (GroupRow (String × String)))
  channel_region : Option (List (GroupRow (String × String × String)))
  week : Option (List (GroupRow String))

/-- `get_summary_stats`: all four grouped views are built only when the
result table is non-empty; an empty result table yields an empty dictionary
(lines 239-274: the whole construction sits under `if not result_df.empty`). -/
def get_summary_stats (result_df : List ResultRow) : SummaryStats :=
  if result_df.isEmpty then ⟨none, none, none, none⟩
  else
    ⟨some (groupAgg (fun r => r.product) result_df),
     some (groupAgg (fun r => (r.product, r.week)) result_df),
     some (groupAgg (fun r => (r.product, r.channel, r.region)) result_df),
     some (groupAgg (fun r => r.week) result_df)⟩

/-! ### Schema validation (data_loader.py lines 446-483 and 300-329) -/

/-- Column-name sets of the four tables handed to `validate_case2_data`. The
`required_tables` presence check of lines 457-459 is vacuous here because the
structure carries all four tables, exactly as `load_case2_data` always
populates all four keys before validating. -/
structure Case2Tables where
  total_supply_cols : List String
  actual_build_cols : List String
  demand_forecast_cols : List String
  customer_demand_cols : List String
deriving DecidableEq

/-- `validate_case2_data` (lines 446-483): lower-cases every column name and
checks the required identifying columns of each table, returning a plain
boolean. It raises nothing and does not report which column is missing. -/
def validate_case2_data (d : Case2Tables) : Bool :=
  let total_supply_cols := d.total_supply_cols.map lowerStr;
  let actual_build_cols := d.actual_build_cols.map lowerStr;
  let demand_forecast_cols := d.demand_forecast_cols.map lowerStr;
  let customer_demand_cols := d.customer_demand_cols.map lowerStr;
  (["week", "total_supply"].all (fun c => total_supply_cols.contains (lowerStr c)))
    && (["week", "product", "actual_build"].all
        (fun c => actual_build_cols.contains (lowerStr c)))
    && (demand_forecast_cols.any (fun c => lowerStr c == "product"))
    && (["channel", "region"].all (fun c => customer_demand_cols.contains (lowerStr c)))

/-- What `load_case2_data` ultimately returns. -/
inductive LoadOutcome where
  | fromCsv (d : Case2Tables)
  | mockData
deriving DecidableEq

/-- The decision structure of `load_case2_data` after CSV parsing
(lines 302-329): when all four tables were parsed (`some d`) and validation
succeeds, the parsed tables are returned; in every other case — parsing
produced nothing, or `validate_case2_data` returned `False` — the function
falls back to `_generate_mock_case2_data()` with only a UI warning. No
exception is raised and nothing propagates to the caller. -/
def load_case2_postparse (parsed : Option Case2Tables) : LoadOutcome :=
  match parsed with
  | some d => if validate_case2_data d then .fromCsv d else .mockData
  | none => .mockData

/-! ### Structural lemmas about the embedded optimizer -/

theorem nodup_productsList (inp : OptInput) : (productsList inp).Nodup :=
  nodup_sortedDedup _

theorem nodup_channelsList (inp : OptInput) : (channelsList inp).Nodup :=
  nodup_sortedDedup _

theorem nodup_regionsList (inp : OptInput) : (regionsList inp).Nodup :=
  nodup_sortedDedup _

/-- With a duplicate-free week axis the variable index list is
duplicate-free; the other three index sets are deduplicated by
construction. -/
theorem nodup_allTuples (inp : OptInput) (hw : (weeksList inp).Nodup) :
    (allTuples inp).Nodup :=
  nodup_listProd _ _ (nodup_productsList inp)
    (nodup_listProd _ _ (nodup_channelsList inp)
      (nodup_listProd _ _ (nodup_regionsList inp) hw))

/-- Membership in the variable index list, componentwise. -/
theorem mem_allTuples_iff (inp : OptInput) (t : Tup) :
    t ∈ allTuples inp ↔ t.1 ∈ productsList inp ∧ t.2.1 ∈ channelsList inp
      ∧ t.2.2.1 ∈ regionsList inp ∧ t.2.2.2 ∈ weeksList inp := by
  obtain ⟨p, c, r, w⟩ := t
  rw [allTuples, mem_listProd, mem_listProd, mem_listProd]

/-- Every tuple of the variable index list is a key of the demand
dictionary: the initialisation loop of lines 103-107 runs over exactly the
same cross product. -/
theorem inKeysB_of_mem_allTuples (inp : OptInput) (t : Tup)
    (ht : t ∈ allTuples inp) : inKeysB inp t = true := by
  rw [mem_allTuples_iff] at ht
  obtain ⟨h1, h2, h3, h4⟩ := ht
  simp [inKeysB, List.contains, h1, h2, h3, h4]

/-- Unfolding the two nested guards of the extraction loop into a single
boolean filter followed by a map. -/
theorem filterMap_guard {α β : Type} (l : List α) (P : α → Bool) (R : α → Prop)
    [DecidablePred R] (f : α → β) :
    l.filterMap (fun t => if P t then (if R t then some (f t) else none) else none)
      = (l.filter (fun t => P t && decide (R t))).map f := by
  induction l with
  | nil => rfl
  | cons a as ih =>
    by_cases hP : P a <;> by_cases hR : R a <;>
      simp [List.filterMap_cons, List.filter_cons, hP, hR, ih]

/-- The keep condition of the extraction loop (lines 204-206) as one
boolean. -/
def keepB (inp : OptInput) (x : Tup → ℚ) (t : Tup) : Bool :=
  inKeysB inp t && decide (0 < demandT inp t) && decide (0 < x t)

/-- The result table is the filtered, row-built image of the variable index
list. -/
theorem extractResults_eq (inp : OptInput) (x : Tup → ℚ) :
    extractResults inp x
      = ((allTuples inp).filter (keepB inp x)).map (mkResultRow inp x) := by
  rw [extractResults, filterMap_guard]
  rfl

/-- Membership in the result table, in terms of the generating tuple. -/
theorem mem_extractResults (inp : OptInput) (x : Tup → ℚ) (row : ResultRow) :
    row ∈ extractResults inp x
      ↔ ∃ t, (t ∈ allTuples inp ∧ keepB inp x t = true)
          ∧ mkResultRow inp x t = row := by
  rw [extractResults_eq]
  simp [List.mem_map, List.mem_filter]

/-- Total allocated quantity reported for week `w` by a result table. -/
def weekAllocSum (df : List ResultRow) (w : String) : ℚ :=
  ((df.filter (fun row => row.week == w)).map (fun row => row.allocation)).sum

/-- The four identifying fields of a result row, as a tuple. -/
def rowKey (row : ResultRow) : Tup :=
  (row.product, row.channel, row.region, row.week)

theorem rowKey_mkResultRow (inp : OptInput) (x : Tup → ℚ) (t : Tup) :
    rowKey (mkResultRow inp x t) = t :=
  rfl

/-- The week-`w` allocation mass of the extracted rows, re-expressed as a sum
over the generating tuples. -/
theorem sum_week_filter (inp : OptInput) (x : Tup → ℚ) (w : String) (l : List Tup) :
    ((((l.filter (keepB inp x)).map (mkResultRow inp x)).filter
        (fun row => row.week == w)).map (fun row => row.allocation)).sum
      = (l.map (fun t =>
          if keepB inp x t && (t.2.2.2 == w) then x t else 0)).sum := by
  induction l with
  | nil => rfl
  | cons a as ih =>
    rw [List.filter_cons, List.map_cons, List.sum_cons]
    by_cases hk : keepB inp x a = true
    · rw [if_pos hk, List.map_cons, List.filter_cons]
      by_cases hw2 : (a.2.2.2 == w) = true
      · have hcond : ((mkResultRow inp x a).week == w) = true := hw2
        rw [if_pos hcond, List.map_cons, List.sum_cons, ih]
        have hterm : (if keepB inp x a && (a.2.2.2 == w) then x a else 0) = x a := by
          rw [hk, hw2]
          rfl
        rw [hterm]
        rfl
      · have hcond : ¬(((mkResultRow inp x a).week == w) = true) := hw2
        rw [if_neg hcond, ih]
        have hterm : (if keepB inp x a && (a.2.2.2 == w) then x a else 0) = 0 := by
          simp [hw2]
        rw [hterm, zero_add]
    · rw [if_neg hk, ih]
      have hterm : (if keepB inp x a && (a.2.2.2 == w) then x a else 0) = 0 := by
        simp [hk]
      rw [hterm, zero_add]

/-- On a duplicate-free key list containing `w`, a sum whose only possibly
non-zero term sits at key `w` and is at most `g w` is bounded by `g w`. -/
theorem sum_single_key_le (g : String → ℚ) (cond : String → Bool)
    (ws : List String) (w : String) (hnd : ws.Nodup) (hw : w ∈ ws)
    (hg : 0 ≤ g w) :
    (ws.map (fun w2 => if cond w2 && (w2 == w) then g w2 else 0)).sum ≤ g w := by
  induction ws with
  | nil => cases hw
  | cons a as ih =>
    rcases List.mem_cons.mp hw with rfl | hmem
    · have hnotin : w ∉ as := (List.nodup_cons.mp hnd).1
      have htail : (as.map (fun w2 =>
          if cond w2 && (w2 == w) then g w2 else 0)).sum = 0 := by
        apply List.sum_eq_zero
        intro q hq
        rcases List.mem_map.mp hq with ⟨w2, hw2, rfl⟩
        have hfalse : (w2 == w) = false := by
          simp only [beq_eq_false_iff_ne, ne_eq]
          intro h
          exact hnotin (h ▸ hw2)
        simp [hfalse]
      simp only [List.map_cons, List.sum_cons, htail, add_zero]
      by_cases hc : cond w = true
      · simp [hc]
      · simp only [Bool.not_eq_true] at hc
        simp [hc, hg]
    · have hne : (a == w) = false := by
        simp only [beq_eq_false_iff_ne, ne_eq]
        intro h
        exact (List.nodup_cons.mp hnd).1 (h ▸ hmem)
      simp only [List.map_cons, List.sum_cons, hne, Bool.and_false, if_neg,
        Bool.false_eq_true, not_false_eq_true, zero_add]
      exact ih (List.nodup_cons.mp hnd).2 hmem

/-- Core of the supply-cap argument: what the result table reports for week
`w` is at most the total allocation the supply constraint of week `w` caps,
provided the week axis is duplicate-free and the assignment is
non-negative on the variable index list. -/
theorem weekAllocSum_le_supplyLHS (inp : OptInput) (x : Tup → ℚ) (w : String)
    (hnd : (weeksList inp).Nodup) (hw : w ∈ weeksList inp)
    (hpos : ∀ t ∈ allTuples inp, 0 ≤ x t) :
    weekAllocSum (extractResults inp x) w ≤ supplyLHS inp x w := by
  rw [weekAllocSum, extractResults_eq, sum_week_filter, allTuples]
  have e2 : supplyLHS inp x w
      = ((productsList inp).map (fun p =>
          ((channelsList inp).map (fun c =>
            ((regionsList inp).map (fun r => x (p, c, r, w))).sum)).sum)).sum := by
    rw [supplyLHS, triplesList]
    simp only [sum_map_listProd]
  rw [e2]
  simp only [sum_map_listProd]
  refine sum_le_sum_of_mem _ _ _ ?_
  intro p hp
  refine sum_le_sum_of_mem _ _ _ ?_
  intro c hc
  refine sum_le_sum_of_mem _ _ _ ?_
  intro r hr
  have hmem : ((p, c, r, w) : Tup) ∈ allTuples inp :=
    (mem_allTuples_iff inp (p, c, r, w)).mpr ⟨hp, hc, hr, hw⟩
  exact sum_single_key_le (fun w2 => x (p, c, r, w2))
    (fun w2 => keepB inp x (p, c, r, w2)) (weeksList inp) w hnd hw
    (hpos _ hmem)

/-- On a duplicate-free tuple list, filtering the extracted rows by a tuple
key isolates exactly the row generated by that tuple, when it was kept. -/
theorem filter_key_extract (inp : OptInput) (x : Tup → ℚ) (l : List Tup)
    (t : Tup) (hnd : l.Nodup) :
    (((l.filter (keepB inp x)).map (mkResultRow inp x)).filter
        (fun row => decide (rowKey row = t)))
      = if t ∈ l ∧ keepB inp x t = true then [mkResultRow inp x t] else [] := by
  induction l with
  | nil => simp
  | cons a as ih =>
    have hnd2 := List.nodup_cons.mp hnd
    rw [List.filter_cons]
    by_cases hk : keepB inp x a = true
    · rw [if_pos hk, List.map_cons, List.filter_cons]
      by_cases hat : a = t
      · subst hat
        have htail := ih hnd2.2
        rw [if_neg (by intro h; exact hnd2.1 h.1)] at htail
        rw [rowKey_mkResultRow]
        rw [if_pos (by simp), htail, if_pos ⟨List.mem_cons_self a as, hk⟩]
      · have htail := ih hnd2.2
        rw [rowKey_mkResultRow]
        rw [if_neg (by simpa using hat), htail]
        by_cases hmem : t ∈ as ∧ keepB inp x t = true
        · rw [if_pos hmem, if_pos ⟨List.mem_cons_of_mem a hmem.1, hmem.2⟩]
        · rw [if_neg hmem, if_neg ?_]
          intro hcon
          rcases List.mem_cons.mp hcon.1 with rfl | hmm
          · exact hat rfl
          · exact hmem ⟨hmm, hcon.2⟩
    · rw [if_neg hk, ih hnd2.2]
      by_cases hmem : t ∈ as ∧ keepB inp x t = true
      · rw [if_pos hmem, if_pos ⟨List.mem_cons_of_mem a hmem.1, hmem.2⟩]
      · rw [if_neg hmem, if_neg ?_]
        intro hcon
        rcases List.mem_cons.mp hcon.1 with rfl | hmm
        · exact hk hcon.2
        · exact hmem ⟨hmm, hcon.2⟩

/-- Splitting a sum over a list by a boolean predicate. -/
theorem sum_filter_split {α : Type} (l : List α) (p : α → Bool) (f : α → ℚ) :
    ((l.filter p).map f).sum + ((l.filter (fun a => !(p a))).map f).sum
      = (l.map f).sum := by
  induction l with
  | nil => simp
  | cons a as ih =>
    rw [List.filter_cons, List.filter_cons, List.map_cons, List.sum_cons]
    by_cases h : p a = true
    · rw [if_pos h, if_neg (by simp [h]), List.map_cons, List.sum_cons, add_assoc, ih]
    · have hf : p a = false := by simpa using h
      rw [if_neg (by simp [hf]), if_pos (by simp [hf]), List.map_cons, List.sum_cons,
        ← ih]
      ring

/-- A sum of per-group sums over a duplicate-free covering key list equals
the total sum. -/
theorem sum_groups_eq {κ : Type} [DecidableEq κ] (keyf : ResultRow → κ)
    (f : ResultRow → ℚ) (keys : List κ) (df : List ResultRow)
    (hnd : keys.Nodup) (hcover : ∀ r ∈ df, keyf r ∈ keys) :
    (keys.map (fun k =>
        ((df.filter (fun r => decide (keyf r = k))).map f).sum)).sum
      = (df.map f).sum := by
  induction keys generalizing df with
  | nil =>
    have hdf : df = [] := by
      cases df with
      | nil => rfl
      | cons r rs => exact absurd (hcover r (List.mem_cons_self r rs)) (List.not_mem_nil _)
    rw [hdf]
    simp
  | cons k ks ih =>
    have hrest : ∀ k2 ∈ ks, (df.filter (fun r => decide (keyf r = k2)))
        = ((df.filter (fun r => !(decide (keyf r = k)))).filter
            (fun r => decide (keyf r = k2))) := by
      intro k2 hk2
      have hne : k2 ≠ k := fun h => (List.nodup_cons.mp hnd).1 (h ▸ hk2)
      rw [List.filter_filter]
      apply List.filter_congr
      intro r _
      by_cases h : keyf r = k2
      · simp [h, hne]
      · simp [h]
    have hmaps : ks.map (fun k2 =>
          ((df.filter (fun r => decide (keyf r = k2))).map f).sum)
        = ks.map (fun k2 =>
          (((df.filter (fun r => !(decide (keyf r = k)))).filter
              (fun r => decide (keyf r = k2))).map f).sum) := by
      apply List.map_congr_left
      intro k2 hk2
      rw [hrest k2 hk2]
    have hcover2 : ∀ r ∈ df.filter (fun r => !(decide (keyf r = k))), keyf r ∈ ks := by
      intro r hr
      have hr2 := List.mem_filter.mp hr
      have hne : ¬(keyf r = k) := by simpa using hr2.2
      rcases List.mem_cons.mp (hcover r hr2.1) with h | h
      · exact absurd h hne
      · exact h
    simp only [List.map_cons, List.sum_cons, hmaps,
      ih (df.filter (fun r => !(decide (keyf r = k)))) (List.nodup_cons.mp hnd).2 hcover2]
    exact sum_filter_split df (fun r => decide (keyf r = k)) f

/-- `inp` with one more special-constraint record appended. -/
def addConstraint (inp : OptInput) (sc : SpecialConstraint) : OptInput :=
  ⟨inp.data, inp.product_priorities, inp.channel_priorities,
   inp.region_priorities, inp.special_constraints ++ [sc]⟩

/-- A list of rationals with positive sum has a positive element. -/
theorem exists_pos_of_sum_pos (l : List ℚ) (h : 0 < l.sum) : ∃ q ∈ l, 0 < q := by
  induction l with
  | nil => simp at h
  | cons a as ih =>
    by_cases ha : 0 < a
    · exact ⟨a, List.mem_cons_self _ _, ha⟩
    · push_neg at ha
      rw [List.sum_cons] at h
      obtain ⟨q, hq, hq2⟩ := ih (by linarith)
      exact ⟨q, List.mem_cons_of_mem a hq, hq2⟩

/-- A cell can only carry positive demand if all four of its components lie
in the respective index sets: positive demand requires a matching
detailed-demand row (whose identifiers feed the index sets) and an
occurrence of the week on the period axis. -/
theorem demandT_pos_inKeys (inp : OptInput) (t : Tup)
    (h : 0 < demandT inp t) : inKeysB inp t = true := by
  obtain ⟨p, c, r, w⟩ := t
  rw [demandT] at h
  simp only at h
  rw [demandVal] at h
  obtain ⟨q, hq, hqpos⟩ := exists_pos_of_sum_pos _ h
  rcases List.mem_map.mp hq with ⟨w2, hw2, rfl⟩
  have hw2f := List.mem_filter.mp hw2
  have hwweeks : w ∈ weeksList inp := by
    have : w2 = w := by simpa using hw2f.2
    exact this ▸ hw2f.1
  rw [cellSum] at hqpos
  obtain ⟨q2, hq2, hq2pos⟩ := exists_pos_of_sum_pos _ hqpos
  rcases List.mem_map.mp hq2 with ⟨row, hrow, rfl⟩
  have hrowf := List.mem_filter.mp hrow
  have hrowmem : row ∈ inp.data.customer_demand := hrowf.1
  have hmatch := hrowf.2
  simp only [Bool.and_eq_true, beq_iff_eq] at hmatch
  obtain ⟨⟨hp, hc⟩, hr⟩ := hmatch
  have hne : inp.data.customer_demand.isEmpty = false := by
    cases hcd : inp.data.customer_demand with
    | nil => rw [hcd] at hrowmem; cases hrowmem
    | cons a as => rfl
  have hpmem : p ∈ productsList inp := by
    rw [productsList, mem_sortedDedup, List.mem_append]
    left
    rw [if_neg (by simp [hne]), mem_dedupFirst]
    exact hp ▸ List.mem_map_of_mem (fun r2 => r2.product) hrowmem
  have hcmem : c ∈ channelsList inp := by
    rw [channelsList, mem_sortedDedup]
    have hcs : c ∈ (if inp.data.customer_demand.isEmpty then []
        else dedupFirst (inp.data.customer_demand.map (fun r2 => r2.channel))) := by
      rw [if_neg (by simp [hne]), mem_dedupFirst]
      exact hc ▸ List.mem_map_of_mem (fun r2 => r2.channel) hrowmem
    by_cases hdef : (if inp.data.customer_demand.isEmpty then []
        else dedupFirst (inp.data.customer_demand.map (fun r2 => r2.channel))).contains "Default"
    · rw [if_pos hdef]
      exact hcs
    · rw [if_neg hdef]
      exact List.mem_append_left _ hcs
  have hrmem : r ∈ regionsList inp := by
    rw [regionsList, mem_sortedDedup]
    have hrs : r ∈ (if inp.data.customer_demand.isEmpty then []
        else dedupFirst (inp.data.customer_demand.map (fun r2 => r2.region))) := by
      rw [if_neg (by simp [hne]), mem_dedupFirst]
      exact hr ▸ List.mem_map_of_mem (fun r2 => r2.region) hrowmem
    by_cases hdef : (if inp.data.customer_demand.isEmpty then []
        else dedupFirst (inp.data.customer_demand.map (fun r2 => r2.region))).contains "Default"
    · rw [if_pos hdef]
      exact hrs
    · rw [if_neg hdef]
      exact List.mem_append_left _ hrs
  simp [inKeysB, List.contains, hpmem, hcmem, hrmem, hwweeks]

/-- Filtering a keyed, duplicate-free build by one key value isolates
exactly one element when the key occurs. -/
theorem length_filter_map_key {κ G : Type} [DecidableEq κ] (build : κ → G)
    (key : G → κ) (hbk : ∀ k, key (build k) = k) (ks : List κ) (kk : κ)
    (hnd : ks.Nodup) :
    ((ks.map build).filter (fun g => decide (key g = kk))).length
      = if kk ∈ ks then 1 else 0 := by
  induction ks with
  | nil => simp
  | cons a as ih =>
    have hnd2 := List.nodup_cons.mp hnd
    rw [List.map_cons, List.filter_cons]
    by_cases hak : key (build a) = kk
    · rw [hbk] at hak
      subst hak
      rw [if_pos (by simp [hbk]), List.length_cons, ih hnd2.2,
        if_neg hnd2.1, if_pos (List.mem_cons_self a as)]
    · have hne : a ≠ kk := fun hh => hak (by rw [hbk, hh])
      rw [if_neg (by simpa using hak), ih hnd2.2]
      by_cases hm : kk ∈ as
      · rw [if_pos hm, if_pos (List.mem_cons_of_mem a hm)]
      · rw [if_neg hm, if_neg ?_]
        intro hc
        rcases List.mem_cons.mp hc with hh | hh
        · exact hne hh.symm
        · exact hm hh

/-- Each key value occurring in the result table owns exactly one group row
of the corresponding grouped view. -/
theorem filter_groupAgg_key {κ : Type} [DecidableEq κ] (keyf : ResultRow → κ)
    (df : List ResultRow) (kk : κ) (hk : kk ∈ df.map keyf) :
    ((groupAgg keyf df).filter (fun g => decide (g.key = kk))).length = 1 := by
  rw [groupAgg]
  refine Eq.trans (length_filter_map_key _ GroupRow.key (fun k => rfl) _ kk
    (nodup_dedupFirst _)) ?_
  rw [if_pos ((mem_dedupFirst _ _).mpr hk)]

/-! ### Concrete instances used by witnesses and counterexamples -/

/-- One detailed-demand row: product A, channel C, region R, 10 units in
week wk1. -/
def rowA : DemandRow := ⟨"A", "C", "R", [("wk1", 10)]⟩

/-- Columns of the detailed-demand table. -/
def cdCols : List String := ["product", "channel", "region", "wk1"]

/-- The positive-demand cell of the tiny instances. -/
def cellA : Tup := ("A", "C", "R", "wk1")

/-- Tiny instance: 6 units of supply in wk1 against 10 units of demand,
all priority weights 1, no special constraints. -/
def inpW : OptInput :=
  ⟨⟨[⟨"wk1", 6⟩], [], [], cdCols, [rowA]⟩,
   some [("A", 1)], some [("C", 1), ("Default", 1)],
   some [("Default", 1), ("R", 1)], []⟩

/-- Same instance but with an empty supply table: week wk1 carries demand
yet is absent from the supply dictionary. -/
def inpNoSupply : OptInput :=
  ⟨⟨[], [], [], cdCols, [rowA]⟩,
   some [("A", 1)], some [("C", 1), ("Default", 1)],
   some [("Default", 1), ("R", 1)], []⟩

/-- Override at 50% satisfaction on the positive-demand cell. -/
def scHalf : SpecialConstraint :=
  ⟨some "A", some "C", some "R", some "wk1", some (1 / 2)⟩

/-- Override naming a cell whose demand is zero. -/
def scZero : SpecialConstraint :=
  ⟨some "A", some "C", some "Default", some "wk1", some 1⟩

/-- Override record whose product field is missing (falsy). -/
def scFalsy : SpecialConstraint :=
  ⟨none, some "C", some "R", some "wk1", some 1⟩

/-- `inpW` plus the 50% override. -/
def inpOv : OptInput :=
  ⟨⟨[⟨"wk1", 6⟩], [], [], cdCols, [rowA]⟩,
   some [("A", 1)], some [("C", 1), ("Default", 1)],
   some [("Default", 1), ("R", 1)], [scHalf]⟩

/-- Assignment giving the positive-demand cell 6 units (the full supply). -/
def xW : Tup → ℚ := fun t => if t = cellA then 6 else 0

/-- Assignment giving the positive-demand cell its full 10-unit demand. -/
def xFull : Tup → ℚ := fun t => if t = cellA then 10 else 0

theorem evW_weeks : weeksList inpW = ["wk1"] := by decide

theorem evW_tuples : allTuples inpW =
    [("A", "C", "Default", "wk1"), ("A", "C", "R", "wk1"),
     ("A", "Default", "Default", "wk1"), ("A", "Default", "R", "wk1")] := by
  decide

theorem evW_demandA : demandT inpW ("A", "C", "R", "wk1") = 10 := by
  have hW : weeksList inpW = ["wk1"] := evW_weeks
  simp only [demandT, demandVal, hW, cellSum]
  norm_num [inpW, rowA, List.lookup]

theorem evW_demand1 : demandT inpW ("A", "C", "Default", "wk1") = 0 := by
  have hW : weeksList inpW = ["wk1"] := evW_weeks
  have hrows : inpW.data.customer_demand.filter
      (fun row => row.product == "A" && row.channel == "C" && row.region == "Default")
      = [] := by decide
  simp only [demandT, demandVal, hW, cellSum, hrows]
  norm_num

theorem evW_demand3 : demandT inpW ("A", "Default", "Default", "wk1") = 0 := by
  have hW : weeksList inpW = ["wk1"] := evW_weeks
  have hrows : inpW.data.customer_demand.filter
      (fun row => row.product == "A" && row.channel == "Default" && row.region == "Default")
      = [] := by decide
  simp only [demandT, demandVal, hW, cellSum, hrows]
  norm_num

theorem evW_demand4 : demandT inpW ("A", "Default", "R", "wk1") = 0 := by
  have hW : weeksList inpW = ["wk1"] := evW_weeks
  have hrows : inpW.data.customer_demand.filter
      (fun row => row.product == "A" && row.channel == "Default" && row.region == "R")
      = [] := by decide
  simp only [demandT, demandVal, hW, cellSum, hrows]
  norm_num

theorem evNS_weeks : weeksList inpNoSupply = ["wk1"] := by decide

theorem evNS_tuples : allTuples inpNoSupply =
    [("A", "C", "Default", "wk1"), ("A", "C", "R", "wk1"),
     ("A", "Default", "Default", "wk1"), ("A", "Default", "R", "wk1")] := by
  decide

theorem evNS_demandA : demandT inpNoSupply ("A", "C", "R", "wk1") = 10 := by
  have hW : weeksList inpNoSupply = ["wk1"] := evNS_weeks
  simp only [demandT, demandVal, hW, cellSum]
  norm_num [inpNoSupply, rowA, List.lookup]

theorem evNS_demand1 : demandT inpNoSupply ("A", "C", "Default", "wk1") = 0 := by
  have hrows : inpNoSupply.data.customer_demand.filter
      (fun row => row.product == "A" && row.channel == "C" && row.region == "Default")
      = [] := by decide
  simp only [demandT, demandVal, evNS_weeks, cellSum, hrows]
  norm_num

theorem evNS_demand3 : demandT inpNoSupply ("A", "Default", "Default", "wk1") = 0 := by
  have hrows : inpNoSupply.data.customer_demand.filter
      (fun row => row.product == "A" && row.channel == "Default" && row.region == "Default")
      = [] := by decide
  simp only [demandT, demandVal, evNS_weeks, cellSum, hrows]
  norm_num

theorem evNS_demand4 : demandT inpNoSupply ("A", "Default", "R", "wk1") = 0 := by
  have hrows : inpNoSupply.data.customer_demand.filter
      (fun row => row.product == "A" && row.channel == "Default" && row.region == "R")
      = [] := by decide
  simp only [demandT, demandVal, evNS_weeks, cellSum, hrows]
  norm_num

/-- `inpW` is feasible under the 6-unit assignment `xW`. -/
theorem feasW : Feasible inpW xW := by
  refine ⟨?_, ?_, ?_, ?_⟩
  · intro t ht
    rw [xW]
    by_cases h : t = cellA
    · rw [if_pos h]; norm_num
    · rw [if_neg h]
  · intro w hw
    rw [evW_weeks] at hw
    rcases List.mem_cons.mp hw with rfl | hw2
    · rw [weekSupplyOK, show supplyLookup inpW "wk1" = some 6 from by decide,
        Option.getD_some, supplyLHS,
        show triplesList inpW = [("A", "C", "Default"), ("A", "C", "R"),
          ("A", "Default", "Default"), ("A", "Default", "R")] from by decide]
      simp only [List.map_cons, List.map_nil, List.sum_cons, List.sum_nil]
      rw [show xW ("A", "C", "Default", "wk1") = 0 from by decide,
        show xW ("A", "C", "R", "wk1") = 6 from by decide,
        show xW ("A", "Default", "Default", "wk1") = 0 from by decide,
        show xW ("A", "Default", "R", "wk1") = 0 from by decide]
      norm_num
    · cases hw2
  · intro t ht _
    rw [evW_tuples] at ht
    fin_cases ht
    · rw [show xW ("A", "C", "Default", "wk1") = 0 from by decide, evW_demand1]
    · rw [show xW ("A", "C", "R", "wk1") = 6 from by decide, evW_demandA]
      norm_num
    · rw [show xW ("A", "Default", "Default", "wk1") = 0 from by decide, evW_demand3]
    · rw [show xW ("A", "Default", "R", "wk1") = 0 from by decide, evW_demand4]
  · intro sc hsc
    rw [show inpW.special_constraints = [] from rfl] at hsc
    cases hsc

/-- `inpNoSupply` is feasible under the full-demand assignment `xFull`: with
week wk1 absent from the supply table, no supply constraint binds. -/
theorem feasNS : Feasible inpNoSupply xFull := by
  refine ⟨?_, ?_, ?_, ?_⟩
  · intro t ht
    rw [xFull]
    by_cases h : t = cellA
    · rw [if_pos h]; norm_num
    · rw [if_neg h]
  · intro w hw
    rw [evNS_weeks] at hw
    rcases List.mem_cons.mp hw with rfl | hw2
    · rw [weekSupplyOK, show supplyLookup inpNoSupply "wk1" = none from by decide,
        Option.getD_none]
    · cases hw2
  · intro t ht _
    rw [evNS_tuples] at ht
    fin_cases ht
    · rw [show xFull ("A", "C", "Default", "wk1") = 0 from by decide, evNS_demand1]
    · rw [show xFull ("A", "C", "R", "wk1") = 10 from by decide, evNS_demandA]
    · rw [show xFull ("A", "Default", "Default", "wk1") = 0 from by decide, evNS_demand3]
    · rw [show xFull ("A", "Default", "R", "wk1") = 0 from by decide, evNS_demand4]
  · intro sc hsc
    rw [show inpNoSupply.special_constraints = [] from rfl] at hsc
    cases hsc

theorem evNS_pos : posDemandTuples inpNoSupply = [("A", "C", "R", "wk1")] := by
  have h1 : (inKeysB inpNoSupply ("A", "C", "Default", "wk1")
      && decide (0 < demandT inpNoSupply ("A", "C", "Default", "wk1"))) = false := by
    rw [evNS_demand1]; decide
  have h2 : (inKeysB inpNoSupply ("A", "C", "R", "wk1")
      && decide (0 < demandT inpNoSupply ("A", "C", "R", "wk1"))) = true := by
    rw [evNS_demandA]; decide
  have h3 : (inKeysB inpNoSupply ("A", "Default", "Default", "wk1")
      && decide (0 < demandT inpNoSupply ("A", "Default", "Default", "wk1"))) = false := by
    rw [evNS_demand3]; decide
  have h4 : (inKeysB inpNoSupply ("A", "Default", "R", "wk1")
      && decide (0 < demandT inpNoSupply ("A", "Default", "R", "wk1"))) = false := by
    rw [evNS_demand4]; decide
  rw [posDemandTuples, evNS_tuples]
  simp only [List.filter_cons, List.filter_nil, h1, h2, h3, h4]
  simp

theorem evNS_priority : priorityOf inpNoSupply "A" "C" "R" = 1 := by
  have h1 : ((resolvedProductPriorities inpNoSupply).lookup "A") = some 1 := by decide
  have h2 : ((resolvedChannelPriorities inpNoSupply).lookup "C") = some 1 := by decide
  have h3 : ((resolvedRegionPriorities inpNoSupply).lookup "R") = some 1 := by decide
  rw [priorityOf, h1, h2, h3]
  norm_num

/-- With one positive-demand cell the objective is a single term. -/
theorem objNS (z : Tup → ℚ) : objectiveVal inpNoSupply z
    = priorityOf inpNoSupply "A" "C" "R" * z ("A", "C", "R", "wk1")
        / demandT inpNoSupply ("A", "C", "R", "wk1") := by
  rw [objectiveVal, evNS_pos]
  simp [objTerm]

/-- `xFull` is an optimal solution of the no-supply instance: every feasible
assignment is demand-capped at 10 on the unique objective cell. -/
theorem optNS : OptimalSol inpNoSupply xFull := by
  refine ⟨feasNS, ?_⟩
  intro y hy
  rw [objNS y, objNS xFull, evNS_priority, evNS_demandA, one_mul, one_mul,
    show xFull ("A", "C", "R", "wk1") = 10 from by decide]
  have hmem : (("A", "C", "R", "wk1") : Tup) ∈ allTuples inpNoSupply := by
    rw [evNS_tuples]; simp
  have hyle : y ("A", "C", "R", "wk1") ≤ 10 := by
    have h := hy.2.2.1 _ hmem (inKeysB_of_mem_allTuples _ _ hmem)
    rwa [evNS_demandA] at h
  gcongr

theorem evNS_extract : extractResults inpNoSupply xFull
    = [mkResultRow inpNoSupply xFull ("A", "C", "R", "wk1")] := by
  have k1 : keepB inpNoSupply xFull ("A", "C", "Default", "wk1") = false := by
    rw [keepB, evNS_demand1]; decide
  have k2 : keepB inpNoSupply xFull ("A", "C", "R", "wk1") = true := by
    rw [keepB, evNS_demandA]; decide
  have k3 : keepB inpNoSupply xFull ("A", "Default", "Default", "wk1") = false := by
    rw [keepB, evNS_demand3]; decide
  have k4 : keepB inpNoSupply xFull ("A", "Default", "R", "wk1") = false := by
    rw [keepB, evNS_demand4]; decide
  rw [extractResults_eq, evNS_tuples]
  simp only [List.filter_cons, List.filter_nil, k1, k2, k3, k4]
  simp

/-- The result table of the no-supply instance reports 10 allocated units in
week wk1, a week with no supply entry. -/
theorem evNS_weekSum : weekAllocSum (extractResults inpNoSupply xFull) "wk1" = 10 := by
  rw [evNS_extract, weekAllocSum]
  simp only [List.filter_cons, List.filter_nil,
    show ((mkResultRow inpNoSupply xFull ("A", "C", "R", "wk1")).week == "wk1")
      = true from by decide, if_pos, List.map_cons, List.map_nil,
    List.sum_cons, List.sum_nil]
  rw [show (mkResultRow inpNoSupply xFull ("A", "C", "R", "wk1")).allocation
      = xFull ("A", "C", "R", "wk1") from rfl,
    show xFull ("A", "C", "R", "wk1") = 10 from by decide]
  norm_num

theorem evOv_demandA : demandT inpOv ("A", "C", "R", "wk1") = 10 := by
  have h : demandT inpOv ("A", "C", "R", "wk1") = demandT inpW ("A", "C", "R", "wk1") := rfl
  rw [h, evW_demandA]

/-- `inpOv` is feasible under `xW`: the 50% override floor (5 units) sits
below the 6 allocated units. -/
theorem feasOv : Feasible inpOv xW := by
  refine ⟨?_, ?_, ?_, ?_⟩
  · intro t ht
    rw [xW]
    by_cases h : t = cellA
    · rw [if_pos h]; norm_num
    · rw [if_neg h]
  · intro w hw
    rw [show weeksList inpOv = ["wk1"] from by decide] at hw
    rcases List.mem_cons.mp hw with rfl | hw2
    · rw [weekSupplyOK, show supplyLookup inpOv "wk1" = some 6 from by decide,
        Option.getD_some, supplyLHS,
        show triplesList inpOv = [("A", "C", "Default"), ("A", "C", "R"),
          ("A", "Default", "Default"), ("A", "Default", "R")] from by decide]
      simp only [List.map_cons, List.map_nil, List.sum_cons, List.sum_nil]
      rw [show xW ("A", "C", "Default", "wk1") = 0 from by decide,
        show xW ("A", "C", "R", "wk1") = 6 from by decide,
        show xW ("A", "Default", "Default", "wk1") = 0 from by decide,
        show xW ("A", "Default", "R", "wk1") = 0 from by decide]
      norm_num
    · cases hw2
  · intro t ht _
    rw [show allTuples inpOv = [("A", "C", "Default", "wk1"), ("A", "C", "R", "wk1"),
        ("A", "Default", "Default", "wk1"), ("A", "Default", "R", "wk1")] from by decide] at ht
    have hd1 : demandT inpOv ("A", "C", "Default", "wk1") = 0 :=
      Eq.trans (rfl : demandT inpOv ("A", "C", "Default", "wk1")
        = demandT inpW ("A", "C", "Default", "wk1")) evW_demand1
    have hd3 : demandT inpOv ("A", "Default", "Default", "wk1") = 0 :=
      Eq.trans (rfl : demandT inpOv ("A", "Default", "Default", "wk1")
        = demandT inpW ("A", "Default", "Default", "wk1")) evW_demand3
    have hd4 : demandT inpOv ("A", "Default", "R", "wk1") = 0 :=
      Eq.trans (rfl : demandT inpOv ("A", "Default", "R", "wk1")
        = demandT inpW ("A", "Default", "R", "wk1")) evW_demand4
    fin_cases ht
    · rw [show xW ("A", "C", "Default", "wk1") = 0 from by decide, hd1]
    · rw [show xW ("A", "C", "R", "wk1") = 6 from by decide, evOv_demandA]
      norm_num
    · rw [show xW ("A", "Default", "Default", "wk1") = 0 from by decide, hd3]
    · rw [show xW ("A", "Default", "R", "wk1") = 0 from by decide, hd4]
  · intro sc hsc
    rw [show inpOv.special_constraints = [scHalf] from rfl] at hsc
    rcases List.mem_cons.mp hsc with rfl | hsc2
    · intro _
      show scRate scHalf * demandT inpOv ("A", "C", "R", "wk1") ≤ xW ("A", "C", "R", "wk1")
      rw [show scRate scHalf = 1 / 2 from rfl, evOv_demandA,
        show xW ("A", "C", "R", "wk1") = 6 from by decide]
      norm_num
    · cases hsc2

theorem evOv_active : scActive inpOv scHalf = true := by
  rw [scActive, show demandT inpOv (scFields scHalf) = 10 from evOv_demandA]
  decide

/-! ### The claims -/

/-- C1, counterexample. In `inpNoSupply` the week wk1 appears in the demand
data with demand 10 but is absent from the supply table, yet the optimal
solution of the program built by `optimize_supply_allocation` allocates all
10 units in wk1: the result's weekly total is 10, not 0. Lines 167-171 only
add a supply constraint for weeks present in the supply dictionary, so the
zero-cap convention claimed for absent weeks does not hold. -/
theorem claimC1_counterexample :
    ("wk1" ∈ weeksList inpNoSupply)
    ∧ 0 < demandT inpNoSupply ("A", "C", "R", "wk1")
    ∧ supplyLookup inpNoSupply "wk1" = none
    ∧ OptimalSol inpNoSupply xFull
    ∧ weekAllocSum (extractResults inpNoSupply xFull) "wk1" = 10 :=
  ⟨by decide, by rw [evNS_demandA]; norm_num, by decide, optNS, evNS_weekSum⟩

/-- C1, amended: for every period `w` of the (duplicate-free) week axis that
is present in the supply table with value `s`, any feasible — in particular
any returned optimal — assignment yields a result table whose total
allocation for `w` is at most `s`. Periods absent from the supply table
receive no supply constraint. -/
theorem claimC1_supply_cap (inp : OptInput) (x : Tup → ℚ) (w : String) (s : ℚ)
    (hnd : (weeksList inp).Nodup) (hw : w ∈ weeksList inp)
    (hs : supplyLookup inp w = some s) (hx : Feasible inp x) :
    weekAllocSum (extractResults inp x) w ≤ s := by
  have h1 := weekAllocSum_le_supplyLHS inp x w hnd hw hx.1
  have h2 := hx.2.1 w hw
  rw [weekSupplyOK, hs, Option.getD_some] at h2
  exact le_trans h1 h2

/-- C1, witness: in `inpW` (supply 6 in wk1) the feasible assignment `xW`
reports at most 6 allocated units for wk1. -/
theorem claimC1_witness : weekAllocSum (extractResults inpW xW) "wk1" ≤ 6 :=
  claimC1_supply_cap inpW xW "wk1" 6 (by decide) (by decide) (by decide) feasW

/-- C2: every result row satisfies allocation ≤ demand, and every decision
variable of a feasible assignment is capped by its cell's demand
(lines 173-179); extraction copies the variable's value and the cell's
demand into the row (lines 204-216). -/
theorem claimC2_demand_cap (inp : OptInput) (x : Tup → ℚ) (hx : Feasible inp x) :
    (∀ row ∈ extractResults inp x, row.allocation ≤ row.demand)
    ∧ (∀ t ∈ allTuples inp, x t ≤ demandT inp t) := by
  have hcap : ∀ t ∈ allTuples inp, x t ≤ demandT inp t := fun t ht =>
    hx.2.2.1 t ht (inKeysB_of_mem_allTuples inp t ht)
  refine ⟨?_, hcap⟩
  intro row hrow
  rcases (mem_extractResults inp x row).mp hrow with ⟨t, ⟨ht, _⟩, hmk⟩
  rw [← hmk]
  exact hcap t ht

/-- C2, witness at the tiny instance. -/
theorem claimC2_witness :
    (∀ row ∈ extractResults inpW xW, row.allocation ≤ row.demand)
    ∧ (∀ t ∈ allTuples inpW, xW t ≤ demandT inpW t) :=
  claimC2_demand_cap inpW xW feasW

/-- C3: an override record with all four identifying fields truthy, on a
cell with positive demand, forces every feasible (hence every returned
optimal) assignment to allocate at least rate × demand to that cell
(lines 181-191); an override on a zero-demand cell adds no constraint — the
linear program with the record appended is feasible for exactly the same
assignments. -/
theorem claimC3_override (inp : OptInput) (sc : SpecialConstraint) (x : Tup → ℚ) :
    (sc ∈ inp.special_constraints →
      (truthyStr sc.product && truthyStr sc.channel && truthyStr sc.region
        && truthyStr sc.week) = true →
      0 < demandT inp (scFields sc) →
      Feasible inp x →
      scRate sc * demandT inp (scFields sc) ≤ x (scFields sc))
    ∧ (demandT inp (scFields sc) = 0 →
        (Feasible (addConstraint inp sc) x ↔ Feasible inp x)) := by
  constructor
  · intro hmem htruthy hdpos hx
    have hact : scActive inp sc = true := by
      rw [scActive, htruthy, demandT_pos_inKeys inp (scFields sc) hdpos,
        decide_eq_true hdpos]
      rfl
    exact hx.2.2.2 sc hmem hact
  · intro hd0
    have hact : scActive (addConstraint inp sc) sc = false := by
      rw [scActive, show demandT (addConstraint inp sc) (scFields sc) = 0 from hd0]
      simp
    constructor
    · intro hf
      refine ⟨hf.1, hf.2.1, hf.2.2.1, ?_⟩
      intro sc2 hmem2 hact2
      exact hf.2.2.2 sc2 (List.mem_append_left _ hmem2) hact2
    · intro hf
      refine ⟨hf.1, hf.2.1, hf.2.2.1, ?_⟩
      intro sc2 hmem2 hact2
      rcases List.mem_append.mp hmem2 with h | h
      · exact hf.2.2.2 sc2 h hact2
      · have hsc2 : sc2 = sc := by simpa using h
        subst hsc2
        rw [hact] at hact2
        cases hact2

/-- C3, witness: the 50% override on the demand-10 cell of `inpOv` is
honoured by the feasible assignment `xW` (5 ≤ 6), and appending an override
on the zero-demand cell `(A, C, Default, wk1)` of `inpW` leaves feasibility
unchanged. -/
theorem claimC3_witness :
    scRate scHalf * demandT inpOv (scFields scHalf) ≤ xW (scFields scHalf)
    ∧ (Feasible (addConstraint inpW scZero) xW ↔ Feasible inpW xW) :=
  ⟨(claimC3_override inpOv scHalf xW).1 (List.mem_cons_self _ _) (by decide)
      (by rw [show demandT inpOv (scFields scHalf) = 10 from evOv_demandA]; norm_num)
      feasOv,
   (claimC3_override inpW scZero xW).2 evW_demand1⟩

/-- C4: on every non-optimal solver status — infeasible, unbounded, not
solved, undefined — `optimize_supply_allocation` returns the empty result
table (the DataFrame with the standard columns and no rows) and returns
normally rather than raising (lines 224-227). -/
theorem claimC4_nonoptimal_empty (inp : OptInput) :
    optimize_supply_allocation inp SolveStat.infeasible = []
    ∧ optimize_supply_allocation inp SolveStat.unbounded = []
    ∧ optimize_supply_allocation inp SolveStat.notSolved = []
    ∧ optimize_supply_allocation inp SolveStat.undefinedStat = [] :=
  ⟨rfl, rfl, rfl, rfl⟩

/-- C5, counterexample: the zero-demand tuple `(A, C, Default, wk1)` of
`inpW` IS in the decision-variable index list — `LpVariable.dicts`
(lines 132-138) receives the full cross product, not just positive-demand
tuples — refuting "tuples with demand 0 get no decision variable". -/
theorem claimC5_counterexample :
    (("A", "C", "Default", "wk1") : Tup) ∈ allTuples inpW
    ∧ demandT inpW ("A", "C", "Default", "wk1") = 0 :=
  ⟨by decide, evW_demand1⟩

/-- C5, amended: every cross-product tuple gets a decision variable, but a
zero-demand tuple is forced to 0 by its demand cap and non-negativity; the
result table holds exactly one row per tuple with positive demand and
positive allocation, and no row at all for zero-demand tuples. -/
theorem claimC5_rows (inp : OptInput) (x : Tup → ℚ) (hx : Feasible inp x)
    (hnd : (weeksList inp).Nodup) :
    (∀ t ∈ allTuples inp, demandT inp t = 0 → x t = 0)
    ∧ (∀ row ∈ extractResults inp x, 0 < row.demand ∧ 0 < row.allocation)
    ∧ (∀ t ∈ allTuples inp, 0 < demandT inp t → 0 < x t →
        (extractResults inp x).filter (fun row => decide (rowKey row = t))
          = [mkResultRow inp x t])
    ∧ (∀ t ∈ allTuples inp, demandT inp t = 0 →
        (extractResults inp x).filter (fun row => decide (rowKey row = t)) = []) := by
  have hnodup := nodup_allTuples inp hnd
  refine ⟨?_, ?_, ?_, ?_⟩
  · intro t ht hd0
    have h1 := hx.1 t ht
    have h2 := hx.2.2.1 t ht (inKeysB_of_mem_allTuples inp t ht)
    rw [hd0] at h2
    linarith
  · intro row hrow
    rcases (mem_extractResults inp x row).mp hrow with ⟨t, ⟨ht, hk⟩, hmk⟩
    rw [keepB, Bool.and_eq_true, Bool.and_eq_true] at hk
    obtain ⟨⟨_, hd⟩, hxp⟩ := hk
    rw [← hmk]
    exact ⟨of_decide_eq_true hd, of_decide_eq_true hxp⟩
  · intro t ht hd hxp
    have hk : keepB inp x t = true := by
      rw [keepB, inKeysB_of_mem_allTuples inp t ht, decide_eq_true hd,
        decide_eq_true hxp]
      rfl
    rw [extractResults_eq, filter_key_extract inp x _ t hnodup, if_pos ⟨ht, hk⟩]
  · intro t ht hd0
    have hk : keepB inp x t = false := by
      rw [keepB, hd0]
      simp
    rw [extractResults_eq, filter_key_extract inp x _ t hnodup, if_neg ?_]
    rintro ⟨-, hcc⟩
    rw [hk] at hcc
    cases hcc

/-- C5, witness at the tiny instance. -/
theorem claimC5_witness :
    (∀ t ∈ allTuples inpW, demandT inpW t = 0 → xW t = 0)
    ∧ (∀ row ∈ extractResults inpW xW, 0 < row.demand ∧ 0 < row.allocation)
    ∧ (∀ t ∈ allTuples inpW, 0 < demandT inpW t → 0 < xW t →
        (extractResults inpW xW).filter (fun row => decide (rowKey row = t))
          = [mkResultRow inpW xW t])
    ∧ (∀ t ∈ allTuples inpW, demandT inpW t = 0 →
        (extractResults inpW xW).filter (fun row => decide (rowKey row = t)) = []) :=
  claimC5_rows inpW xW feasW (by decide)

/-- C6: the priority dictionary built by lines 140-148 maps every triple of
the index sets to the product of the three independent weights, the
defaults for entries absent from a supplied map being 5 (products) and 1
(channels, regions) — and neither default is 0. -/
theorem claimC6_priority (inp : OptInput) (pp cp rp : List (String × ℚ))
    (p c r : String)
    (hpp : inp.product_priorities = some pp)
    (hcp : inp.channel_priorities = some cp)
    (hrp : inp.region_priorities = some rp)
    (hp : p ∈ productsList inp) (hc : c ∈ channelsList inp)
    (hr : r ∈ regionsList inp) :
    (priorityDict inp).lookup (p, c, r)
      = some (((pp.lookup p).getD 5) * ((cp.lookup c).getD 1)
          * ((rp.lookup r).getD 1))
    ∧ (5 : ℚ) ≠ 0 ∧ (1 : ℚ) ≠ 0 := by
  have hmem : ((p, c, r) : String × String × String) ∈ triplesList inp := by
    rw [triplesList, mem_listProd, mem_listProd]
    exact ⟨hp, hc, hr⟩
  refine ⟨?_, by norm_num, by norm_num⟩
  rw [priorityDict, lookup_map_self _ _ _ hmem]
  simp only [priorityOf, resolvedProductPriorities, resolvedChannelPriorities,
    resolvedRegionPriorities, hpp, hcp, hrp]

/-- C6, witness at the tiny instance's maps. -/
theorem claimC6_witness :
    (priorityDict inpW).lookup ("A", "C", "R")
      = some ((([("A", (1 : ℚ))].lookup "A").getD 5)
          * (([("C", (1 : ℚ)), ("Default", 1)].lookup "C").getD 1)
          * (([("Default", (1 : ℚ)), ("R", 1)].lookup "R").getD 1))
    ∧ (5 : ℚ) ≠ 0 ∧ (1 : ℚ) ≠ 0 :=
  claimC6_priority inpW [("A", 1)] [("C", 1), ("Default", 1)]
    [("Default", 1), ("R", 1)] "A" "C" "R" rfl rfl rfl
    (by decide) (by decide) (by decide)

/-- Four tables whose supply table lacks the required `week` column. -/
def badTables : Case2Tables :=
  ⟨["total_supply"], ["week", "product", "actual_build"], ["product"],
   ["channel", "region"]⟩

/-- C7, counterexample: on a supply table missing its `week` column,
`validate_case2_data` merely returns `False` — no SchemaError exists in the
code, no missing column is named — and `load_case2_data` recovers
internally by substituting generated mock data. -/
theorem claimC7_counterexample :
    validate_case2_data badTables = false
    ∧ load_case2_postparse (some badTables) = LoadOutcome.mockData :=
  ⟨by decide, by decide⟩

/-- C7, amended: whenever any of the four tables is missing one of its
required identifying columns — `week` or `total_supply` in the supply
table, `week`, `product` or `actual_build` in the build table, `product`
among the forecast columns, `channel` or `region` in the detailed-demand
table (all compared lower-cased, as lines 462-483 do) — validation reports
`False` and the loader falls back to generated mock data; nothing is
raised and nothing propagates to the caller. -/
theorem claimC7_fallback (d : Case2Tables)
    (h : ((d.total_supply_cols.map lowerStr).contains "week") = false
      ∨ ((d.total_supply_cols.map lowerStr).contains "total_supply") = false
      ∨ ((d.actual_build_cols.map lowerStr).contains "week") = false
      ∨ ((d.actual_build_cols.map lowerStr).contains "product") = false
      ∨ ((d.actual_build_cols.map lowerStr).contains "actual_build") = false
      ∨ ((d.demand_forecast_cols.map lowerStr).any
          (fun c => lowerStr c == "product")) = false
      ∨ ((d.customer_demand_cols.map lowerStr).contains "channel") = false
      ∨ ((d.customer_demand_cols.map lowerStr).contains "region") = false) :
    validate_case2_data d = false
    ∧ load_case2_postparse (some d) = LoadOutcome.mockData := by
  have lwW : lowerStr "week" = "week" := by decide
  have lwT : lowerStr "total_supply" = "total_supply" := by decide
  have lwP : lowerStr "product" = "product" := by decide
  have lwA : lowerStr "actual_build" = "actual_build" := by decide
  have lwC : lowerStr "channel" = "channel" := by decide
  have lwR : lowerStr "region" = "region" := by decide
  have hv : validate_case2_data d = false := by
    rcases h with h | h | h | h | h | h | h | h
    · have h1 : (["week", "total_supply"].all
          (fun c => (d.total_supply_cols.map lowerStr).contains (lowerStr c)))
          = false := by
        rw [List.all_cons, lwW, h, Bool.false_and]
      simp only [validate_case2_data, h1, Bool.false_and, Bool.and_false]
    · have h1 : (["week", "total_supply"].all
          (fun c => (d.total_supply_cols.map lowerStr).contains (lowerStr c)))
          = false := by
        rw [List.all_cons, List.all_cons, List.all_nil, lwT, h, Bool.false_and,
          Bool.and_false]
      simp only [validate_case2_data, h1, Bool.false_and, Bool.and_false]
    · have h1 : (["week", "product", "actual_build"].all
          (fun c => (d.actual_build_cols.map lowerStr).contains (lowerStr c)))
          = false := by
        rw [List.all_cons, lwW, h, Bool.false_and]
      simp only [validate_case2_data, h1, Bool.false_and, Bool.and_false]
    · have h1 : (["week", "product", "actual_build"].all
          (fun c => (d.actual_build_cols.map lowerStr).contains (lowerStr c)))
          = false := by
        rw [List.all_cons, List.all_cons, lwP, h, Bool.false_and, Bool.and_false]
      simp only [validate_case2_data, h1, Bool.false_and, Bool.and_false]
    · have h1 : (["week", "product", "actual_build"].all
          (fun c => (d.actual_build_cols.map lowerStr).contains (lowerStr c)))
          = false := by
        rw [List.all_cons, List.all_cons, List.all_cons, List.all_nil, lwA, h,
          Bool.false_and, Bool.and_false, Bool.and_false]
      simp only [validate_case2_data, h1, Bool.false_and, Bool.and_false]
    · simp only [validate_case2_data, h, Bool.false_and, Bool.and_false]
    · have h1 : (["channel", "region"].all
          (fun c => (d.customer_demand_cols.map lowerStr).contains (lowerStr c)))
          = false := by
        rw [List.all_cons, lwC, h, Bool.false_and]
      simp only [validate_case2_data, h1, Bool.false_and, Bool.and_false]
    · have h1 : (["channel", "region"].all
          (fun c => (d.customer_demand_cols.map lowerStr).contains (lowerStr c)))
          = false := by
        rw [List.all_cons, List.all_cons, List.all_nil, lwR, h, Bool.false_and,
          Bool.and_false]
      simp only [validate_case2_data, h1, Bool.false_and, Bool.and_false]
  exact ⟨hv, by simp [load_case2_postparse, hv]⟩

/-- C7, witness: the amended behaviour at `badTables`. -/
theorem claimC7_witness :
    validate_case2_data badTables = false
    ∧ load_case2_postparse (some badTables) = LoadOutcome.mockData :=
  claimC7_fallback badTables (Or.inl (by decide))

/-- C8, counterexample: on the empty result table `get_summary_stats`
returns an empty dictionary — none of the four grouped views is present —
because the whole construction sits under `if not result_df.empty`
(lines 242-272). -/
theorem claimC8_counterexample :
    get_summary_stats [] = ⟨none, none, none, none⟩ :=
  rfl

/-- C8, amended: for every NON-empty result table the aggregator returns
all four named grouped views — by product, by (product, week), by
(product, channel, region), by week — each row carrying the group's summed
demand, summed allocation and their quotient, with exactly one group row
per key value occurring in the table. -/
theorem claimC8_views (df : List ResultRow) (h : df ≠ []) :
    ((get_summary_stats df).product = some (groupAgg (fun r => r.product) df))
    ∧ ((get_summary_stats df).product_week
        = some (groupAgg (fun r => (r.product, r.week)) df))
    ∧ ((get_summary_stats df).channel_region
        = some (groupAgg (fun r => (r.product, r.channel, r.region)) df))
    ∧ ((get_summary_stats df).week = some (groupAgg (fun r => r.week) df))
    ∧ (∀ g ∈ groupAgg (fun r => r.week) df,
        g.demand = ((df.filter (fun r => decide (r.week = g.key))).map
            (fun r => r.demand)).sum
        ∧ g.allocation = ((df.filter (fun r => decide (r.week = g.key))).map
            (fun r => r.allocation)).sum
        ∧ g.satisfaction = g.allocation / g.demand)
    ∧ (∀ r ∈ df, ((groupAgg (fun r2 => r2.week) df).filter
        (fun g => decide (g.key = r.week))).length = 1) := by
  have hne : df.isEmpty = false := by
    cases df with
    | nil => exact absurd rfl h
    | cons a as => rfl
  refine ⟨?_, ?_, ?_, ?_, ?_, ?_⟩
  · rw [get_summary_stats, if_neg (by simp [hne])]
  · rw [get_summary_stats, if_neg (by simp [hne])]
  · rw [get_summary_stats, if_neg (by simp [hne])]
  · rw [get_summary_stats, if_neg (by simp [hne])]
  · intro g hg
    rw [groupAgg] at hg
    rcases List.mem_map.mp hg with ⟨k, _, rfl⟩
    exact ⟨rfl, rfl, rfl⟩
  · intro r hr
    exact filter_groupAgg_key (fun r2 => r2.week) df r.week
      (List.mem_map_of_mem _ hr)

/-- One-row result table used by the aggregation witnesses. -/
def dfW : List ResultRow := [⟨"A", "C", "R", "wk1", 10, 6, 3 / 5, 1⟩]

/-- C8, witness: the by-week view exists for the one-row table. -/
theorem claimC8_witness :
    (get_summary_stats dfW).week = some (groupAgg (fun r => r.week) dfW) :=
  (claimC8_views dfW (by simp [dfW])).2.2.2.1

/-- C9: for a non-empty result table, summing the allocation and demand
columns of the by-week grouped view reproduces the grand totals of the flat
table: the groups partition the rows by week. -/
theorem claimC9_week_totals (df : List ResultRow) (h : df ≠ []) :
    (((get_summary_stats df).week.getD []).map (fun g => g.allocation)).sum
        = (df.map (fun r => r.allocation)).sum
    ∧ (((get_summary_stats df).week.getD []).map (fun g => g.demand)).sum
        = (df.map (fun r => r.demand)).sum := by
  have hne : df.isEmpty = false := by
    cases df with
    | nil => exact absurd rfl h
    | cons a as => rfl
  have hview : (get_summary_stats df).week = some (groupAgg (fun r => r.week) df) := by
    rw [get_summary_stats, if_neg (by simp [hne])]
  rw [hview, Option.getD_some]
  have hcover : ∀ r ∈ df, r.week ∈ dedupFirst (df.map (fun r2 => r2.week)) :=
    fun r hr => (mem_dedupFirst _ _).mpr (List.mem_map_of_mem _ hr)
  constructor
  · have hmapA : (groupAgg (fun r => r.week) df).map (fun g => g.allocation)
        = (dedupFirst (df.map (fun r => r.week))).map
            (fun k => ((df.filter (fun r => decide (r.week = k))).map
              (fun r => r.allocation)).sum) := by
      rw [groupAgg, List.map_map]
      rfl
    rw [hmapA]
    exact sum_groups_eq (fun r => r.week) (fun r => r.allocation)
      (dedupFirst (df.map (fun r => r.week))) df (nodup_dedupFirst _) hcover
  · have hmapD : (groupAgg (fun r => r.week) df).map (fun g => g.demand)
        = (dedupFirst (df.map (fun r => r.week))).map
            (fun k => ((df.filter (fun r => decide (r.week = k))).map
              (fun r => r.demand)).sum) := by
      rw [groupAgg, List.map_map]
      rfl
    rw [hmapD]
    exact sum_groups_eq (fun r => r.week) (fun r => r.demand)
      (dedupFirst (df.map (fun r => r.week))) df (nodup_dedupFirst _) hcover

/-- C9, witness at the one-row table. -/
theorem claimC9_witness :
    (((get_summary_stats dfW).week.getD []).map (fun g => g.allocation)).sum
        = (dfW.map (fun r => r.allocation)).sum
    ∧ (((get_summary_stats dfW).week.getD []).map (fun g => g.demand)).sum
        = (dfW.map (fun r => r.demand)).sum :=
  claimC9_week_totals dfW (by simp [dfW])

/-- C10: a special-constraint record with a falsy identifying field never
reaches the `prob +=` of line 191 — `all([p, c, r, w])` fails — so inserting
it anywhere in the list leaves the feasible set, the extracted result and
the objective unchanged, and optimality of any assignment with it equals
optimality without it: it can neither cause infeasibility nor change the
returned allocation. -/
theorem claimC10_falsy (data : CaseData) (opp ocp orp : Option (List (String × ℚ)))
    (l₁ l₂ : List SpecialConstraint) (sc : SpecialConstraint) (x : Tup → ℚ)
    (hfalsy : (truthyStr sc.product && truthyStr sc.channel
      && truthyStr sc.region && truthyStr sc.week) = false) :
    (Feasible ⟨data, opp, ocp, orp, l₁ ++ sc :: l₂⟩ x
        ↔ Feasible ⟨data, opp, ocp, orp, l₁ ++ l₂⟩ x)
    ∧ extractResults ⟨data, opp, ocp, orp, l₁ ++ sc :: l₂⟩ x
        = extractResults ⟨data, opp, ocp, orp, l₁ ++ l₂⟩ x
    ∧ objectiveVal ⟨data, opp, ocp, orp, l₁ ++ sc :: l₂⟩ x
        = objectiveVal ⟨data, opp, ocp, orp, l₁ ++ l₂⟩ x
    ∧ (OptimalSol ⟨data, opp, ocp, orp, l₁ ++ sc :: l₂⟩ x
        ↔ OptimalSol ⟨data, opp, ocp, orp, l₁ ++ l₂⟩ x) := by
  have hact : scActive ⟨data, opp, ocp, orp, l₁ ++ sc :: l₂⟩ sc = false := by
    rw [scActive, hfalsy, Bool.false_and, Bool.false_and]
  have hfeas : ∀ z : Tup → ℚ, Feasible ⟨data, opp, ocp, orp, l₁ ++ sc :: l₂⟩ z
      ↔ Feasible ⟨data, opp, ocp, orp, l₁ ++ l₂⟩ z := by
    intro z
    constructor
    · intro hf
      refine ⟨hf.1, hf.2.1, hf.2.2.1, ?_⟩
      intro sc2 hmem2 hact2
      apply hf.2.2.2 sc2 ?_ hact2
      rcases List.mem_append.mp hmem2 with hh | hh
      · exact List.mem_append_left _ hh
      · exact List.mem_append_right _ (List.mem_cons_of_mem _ hh)
    · intro hf
      refine ⟨hf.1, hf.2.1, hf.2.2.1, ?_⟩
      intro sc2 hmem2 hact2
      rcases List.mem_append.mp hmem2 with hh | hh
      · exact hf.2.2.2 sc2 (List.mem_append_left _ hh) hact2
      · rcases List.mem_cons.mp hh with rfl | hh2
        · rw [hact] at hact2
          cases hact2
        · exact hf.2.2.2 sc2 (List.mem_append_right _ hh2) hact2
  refine ⟨hfeas x, rfl, rfl, ?_⟩
  constructor
  · rintro ⟨hf, hmax⟩
    exact ⟨(hfeas x).mp hf, fun y hy => hmax y ((hfeas y).mpr hy)⟩
  · rintro ⟨hf, hmax⟩
    exact ⟨(hfeas x).mpr hf, fun y hy => hmax y ((hfeas y).mp hy)⟩

/-- C10, witness: inserting the product-less record `scFalsy` into the tiny
instance's (empty) constraint list does not change feasibility. -/
theorem claimC10_witness :
    Feasible ⟨⟨[⟨"wk1", 6⟩], [], [], cdCols, [rowA]⟩, some [("A", 1)],
        some [("C", 1), ("Default", 1)], some [("Default", 1), ("R", 1)],
        [] ++ scFalsy :: []⟩ xW
      ↔ Feasible ⟨⟨[⟨"wk1", 6⟩], [], [], cdCols, [rowA]⟩, some [("A", 1)],
        some [("C", 1), ("Default", 1)], some [("Default", 1), ("R", 1)],
        [] ++ []⟩ xW :=
  (claimC10_falsy ⟨[⟨"wk1", 6⟩], [], [], cdCols, [rowA]⟩ (some [("A", 1)])
    (some [("C", 1), ("Default", 1)]) (some [("Default", 1), ("R", 1)])
    [] [] scFalsy xW (by decide)).1
